import Mathlib

/-!
Verification of the core of the `alien` particle-simulation engine against its
natural-language specification.  The definitions below are shallow embeddings of
the CUDA/C++ source: float arithmetic is modelled by exact rationals (ℚ),
machine integers by ℤ/ℕ, pointers by option values or ids, and the per-thread
loop bodies by the corresponding pure state transformers.  C++ `%` on signed
integers truncates towards zero, so it is modelled by `Int.tmod`; the C cast
`(int)x` of a `double` also truncates towards zero.
-/

/- ================================================================
   Spatial map position correction (part_000, `mapCorrection_Kernel`)
   ================================================================ -/

/-- One coordinate of the integer overload of `mapCorrection_Kernel`:
`((p % s) + s) % s` with C++ truncating `%`. -/
def mapCorrection1Int (p s : ℤ) : ℤ := ((p.tmod s) + s).tmod s

/-- `mapCorrection_Kernel(int2&, int2 const&)`: componentwise wrap. -/
def mapCorrectionInt (pos size : ℤ × ℤ) : ℤ × ℤ :=
  (mapCorrection1Int pos.1 size.1, mapCorrection1Int pos.2 size.2)

/-- The C cast `(int)x` of a floating-point value: truncation towards zero. -/
def truncQ (q : ℚ) : ℤ := if 0 ≤ q then ⌊q⌋ else ⌈q⌉

/-- One coordinate of the fractional overload of `mapCorrection_Kernel`:
split into integer part `intPart = truncQ x` (the cast, truncating towards
zero) and fractional part `fracPart = x - intPart`, wrap the integer part, and
re-add the fractional part. -/
def mapCorrection1Q (x : ℚ) (s : ℤ) : ℚ :=
  (mapCorrection1Int (truncQ x) s : ℚ) + (x - truncQ x)

/-- `mapCorrection_Kernel(double2&, int2 const&)`: componentwise. -/
def mapCorrectionQ (pos : ℚ × ℚ) (size : ℤ × ℤ) : ℚ × ℚ :=
  (mapCorrection1Q pos.1 size.1, mapCorrection1Q pos.2 size.2)

/- Facts about `Int.tmod` needed for the wrap lemmas. -/

lemma Int.neg_tmod_eq (a s : ℤ) : (-a).tmod s = -(a.tmod s) := by
  have h1 := Int.tmod_add_tdiv a s
  have h2 := Int.tmod_add_tdiv (-a) s
  have h3 : (-a).tdiv s = -(a.tdiv s) := Int.neg_tdiv a s
  rw [h3] at h2; linarith

lemma Int.neg_lt_tmod (a : ℤ) {s : ℤ} (hs : 0 < s) : -s < a.tmod s := by
  rcases le_or_lt 0 a with h | h
  · have := Int.tmod_nonneg s h; omega
  · have h1 : (-a).tmod s < s := Int.tmod_lt_of_pos (-a) hs
    have h2 : (-a).tmod s = -(a.tmod s) := Int.neg_tmod_eq a s
    omega

/-- The wrapped coordinate equals the Euclidean remainder. -/
lemma mapCorrection1Int_eq_emod (p : ℤ) {s : ℤ} (hs : 0 < s) :
    mapCorrection1Int p s = p % s := by
  unfold mapCorrection1Int
  have hlow : -s < p.tmod s := Int.neg_lt_tmod p hs
  have hnn : 0 ≤ p.tmod s + s := by omega
  rw [Int.tmod_eq_emod hnn (le_of_lt hs)]
  have hd := Int.tmod_add_tdiv p s
  have : p.tmod s + s = p + s * (1 - p.tdiv s) := by linarith
  rw [this, Int.add_mul_emod_self_left]

lemma mapCorrection1Int_nonneg (p : ℤ) {s : ℤ} (hs : 0 < s) :
    0 ≤ mapCorrection1Int p s := by
  rw [mapCorrection1Int_eq_emod p hs]
  exact Int.emod_nonneg p (by omega)

lemma mapCorrection1Int_lt (p : ℤ) {s : ℤ} (hs : 0 < s) :
    mapCorrection1Int p s < s := by
  rw [mapCorrection1Int_eq_emod p hs]
  exact Int.emod_lt_of_pos p hs

lemma mapCorrection1Int_idem (p : ℤ) {s : ℤ} (hs : 0 < s) :
    mapCorrection1Int (mapCorrection1Int p s) s = mapCorrection1Int p s := by
  have h0 := mapCorrection1Int_nonneg p hs
  have h1 := mapCorrection1Int_lt p hs
  rw [mapCorrection1Int_eq_emod _ hs, Int.emod_eq_of_lt h0 h1]

/- The fractional part left over by a truncating cast lies in (-1, 1). -/

lemma truncQ_frac_lt_one (x : ℚ) : x - truncQ x < 1 := by
  unfold truncQ
  split
  · linarith [Int.floor_le x, Int.lt_floor_add_one x]
  · have := Int.le_ceil x
    linarith [Int.le_ceil x]

lemma truncQ_frac_gt_neg_one (x : ℚ) : -1 < x - truncQ x := by
  unfold truncQ
  split
  · have := Int.floor_le x
    linarith
  · have := Int.ceil_lt_add_one x
    linarith

/-- Truncation of the wrapped value lands back in `[0, s)`, the key step for
idempotence of the fractional wrap. -/
lemma truncQ_mapCorrection1Q_mem (x : ℚ) {s : ℤ} (hs : 0 < s) :
    0 ≤ truncQ (mapCorrection1Q x s) ∧ truncQ (mapCorrection1Q x s) < s := by
  set k : ℤ := mapCorrection1Int (truncQ x) s with hk
  have hk0 : 0 ≤ k := mapCorrection1Int_nonneg _ hs
  have hk1 : k < s := mapCorrection1Int_lt _ hs
  set f : ℚ := x - truncQ x with hf
  have hf0 : -1 < f := truncQ_frac_gt_neg_one x
  have hf1 : f < 1 := truncQ_frac_lt_one x
  have hy : mapCorrection1Q x s = (k : ℚ) + f := rfl
  have hylow : (-1 : ℚ) < (k : ℚ) + f := by
    have : (0 : ℚ) ≤ (k : ℚ) := by exact_mod_cast hk0
    linarith
  have hyhigh : (k : ℚ) + f < (s : ℚ) := by
    have : (k : ℚ) + 1 ≤ (s : ℚ) := by exact_mod_cast Int.lt_iff_add_one_le.mp hk1
    linarith
  rw [hy]
  unfold truncQ
  split
  · constructor
    · exact Int.floor_nonneg.mpr (by assumption)
    · exact Int.floor_lt.mpr hyhigh
  · constructor
    · have : (-1 : ℤ) < ⌈(k : ℚ) + f⌉ := by
        rw [Int.lt_ceil]; exact_mod_cast hylow
      omega
    · have hle : ⌈(k : ℚ) + f⌉ ≤ 0 := by
        have : (k : ℚ) + f ≤ ((0 : ℤ) : ℚ) := by push_cast; linarith
        exact Int.ceil_le.mpr this
      omega

/-- A value whose truncation already lies in `[0, s)` is a fixed point of the
fractional wrap. -/
lemma mapCorrection1Q_eq_self {y : ℚ} {s : ℤ} (hs : 0 < s)
    (h0 : 0 ≤ truncQ y) (h1 : truncQ y < s) : mapCorrection1Q y s = y := by
  unfold mapCorrection1Q
  rw [mapCorrection1Int_eq_emod _ hs, Int.emod_eq_of_lt h0 h1]
  ring

lemma mapCorrection1Q_idem (x : ℚ) {s : ℤ} (hs : 0 < s) :
    mapCorrection1Q (mapCorrection1Q x s) s = mapCorrection1Q x s := by
  obtain ⟨h0, h1⟩ := truncQ_mapCorrection1Q_mem x hs
  exact mapCorrection1Q_eq_self hs h0 h1

lemma mapCorrection1Q_gt_neg_one (x : ℚ) {s : ℤ} (hs : 0 < s) :
    -1 < mapCorrection1Q x s := by
  unfold mapCorrection1Q
  have hk0 : (0 : ℚ) ≤ (mapCorrection1Int (truncQ x) s : ℚ) := by
    exact_mod_cast mapCorrection1Int_nonneg _ hs
  have := truncQ_frac_gt_neg_one x
  linarith

lemma mapCorrection1Q_lt (x : ℚ) {s : ℤ} (hs : 0 < s) :
    mapCorrection1Q x s < s := by
  unfold mapCorrection1Q
  have hk1 : (mapCorrection1Int (truncQ x) s : ℚ) + 1 ≤ (s : ℚ) := by
    exact_mod_cast Int.lt_iff_add_one_le.mp (mapCorrection1Int_lt (truncQ x) hs)
  have := truncQ_frac_lt_one x
  linarith

/- ================================================================
   Particles and the collision pass
   (ParticleProcessor.cuh, processingCollision_gridCall)
   ================================================================ -/

/-- A particle of the GPU model: position, velocity, scalar energy and the
liveness flag.  Float fields are modelled as exact rationals; the
mutual-exclusion flag `locked` is modelled at the call sites by an explicit
lock-acquisition outcome. -/
structure Particle where
  absPos : ℚ × ℚ
  vel : ℚ × ℚ
  energy : ℚ
  alive : Bool
deriving DecidableEq

/-- The merge body of `processingCollision_gridCall` (lines 71-76): the
surviving particle takes the `factor1/factor2`-weighted velocity and the summed
energy (`atomicAdd(&particle->energy, otherParticle->energy)`); the absorbed
particle's energy is atomically zeroed
(`atomicAdd(&otherParticle->energy, -otherParticle->energy)`) and it is marked
dead. -/
def mergeParticles (p q : Particle) : Particle × Particle :=
  let factor1 : ℚ := p.energy / (p.energy + q.energy)
  let factor2 : ℚ := 1 - factor1
  ({ p with
      vel := (p.vel.1 * factor1 + q.vel.1 * factor2,
              p.vel.2 * factor1 + q.vel.2 * factor2),
      energy := p.energy + q.energy },
   { q with
      energy := q.energy + -q.energy,
      alive := false })

/-- One iteration of the collision loop for a particle `p`, with `other` the
map lookup at `p.absPos`, `distinct` the pointer-inequality test
`otherParticle != particle`, and `lockAcquired` the outcome of
`DoubleLock.tryLock`.  The pair merges only when all guards pass; otherwise
the iteration has no effect. -/
def processCollisionStep (p : Particle) (other : Option Particle)
    (distinct lockAcquired : Bool) : Particle × Option Particle :=
  match other with
  | none => (p, none)
  | some q =>
    if distinct then
      if p.alive && q.alive then
        if lockAcquired then
          let r := mergeParticles p q
          (r.1, some r.2)
        else (p, some q)
      else (p, some q)
    else (p, some q)

/- ================================================================
   Claim C1 — collision merge conserves energy
   ================================================================ -/

/-- C1: for every resolved pair of the collision pass (both particles live,
distinct, double lock acquired), the sum of the two energies is conserved by
the merge, the surviving particle's velocity is the energy-weighted average
`v' = v1*e1/(e1+e2) + v2*e2/(e1+e2)`, and the absorbed particle is marked
dead. -/
theorem collision_merge_conserves_energy (p q : Particle)
    (hp : p.alive = true) (hq : q.alive = true)
    (hE : p.energy + q.energy ≠ 0) :
    ∃ p' q', processCollisionStep p (some q) true true = (p', some q') ∧
      p'.energy + q'.energy = p.energy + q.energy ∧
      p'.vel.1 = p.vel.1 * (p.energy / (p.energy + q.energy))
               + q.vel.1 * (q.energy / (p.energy + q.energy)) ∧
      p'.vel.2 = p.vel.2 * (p.energy / (p.energy + q.energy))
               + q.vel.2 * (q.energy / (p.energy + q.energy)) ∧
      q'.alive = false := by
  refine ⟨(mergeParticles p q).1, (mergeParticles p q).2, ?_, ?_, ?_, ?_, ?_⟩
  · simp [processCollisionStep, hp, hq]
  · simp only [mergeParticles]
    ring
  · simp only [mergeParticles]
    field_simp
  · simp only [mergeParticles]
    field_simp
  · simp [mergeParticles]

/-- Witness for C1, with the energies 4 and 6 and velocities (1,0), (-1,0) of
the spec's end-to-end scenario 2: the merged particle has energy 10 and
velocity (-1/5, 0). -/
theorem collision_merge_conserves_energy_witness :
    ∃ p' q',
      processCollisionStep ⟨(5, 5), (1, 0), 4, true⟩
          (some ⟨(5, 5), (-1, 0), 6, true⟩) true true = (p', some q') ∧
      p'.energy + q'.energy = (4 : ℚ) + 6 ∧
      p'.vel.1 = 1 * ((4 : ℚ) / (4 + 6)) + -1 * ((6 : ℚ) / (4 + 6)) ∧
      p'.vel.2 = 0 * ((4 : ℚ) / (4 + 6)) + 0 * ((6 : ℚ) / (4 + 6)) ∧
      q'.alive = false :=
  collision_merge_conserves_energy
    ⟨(5, 5), (1, 0), 4, true⟩ ⟨(5, 5), (-1, 0), 6, true⟩ rfl rfl (by norm_num)

/- ================================================================
   Claim C2 — wraparound correction
   ================================================================ -/

/-- C2 counterexample: the fractional wraparound does not always land in
`[0, s)`.  At position `(-1/2, -1/2)` with domain size `(10, 10)` the
truncating cast yields integer part 0, so the position is returned unchanged
and stays negative. -/
theorem claim_C2_counterexample :
    mapCorrectionQ (-(1/2 : ℚ), -(1/2 : ℚ)) (10, 10)
        = (-(1/2 : ℚ), -(1/2 : ℚ)) ∧
    ¬ (0 ≤ (mapCorrectionQ (-(1/2 : ℚ), -(1/2 : ℚ)) (10, 10)).1) := by
  have hc : ⌈-(1/2 : ℚ)⌉ = 0 := by norm_num
  have h0 : mapCorrection1Int 0 10 = 0 := by decide
  have h : mapCorrection1Q (-(1/2 : ℚ)) 10 = -(1/2 : ℚ) := by
    unfold mapCorrection1Q truncQ
    rw [if_neg (by norm_num), hc, h0]
    push_cast
    ring
  constructor
  · show (mapCorrection1Q (-(1/2 : ℚ)) 10, mapCorrection1Q (-(1/2 : ℚ)) 10) = _
    rw [h]
  · intro hcon
    rw [show (mapCorrectionQ (-(1/2 : ℚ), -(1/2 : ℚ)) (10, 10)).1
          = mapCorrection1Q (-(1/2 : ℚ)) 10 from rfl, h] at hcon
    norm_num at hcon

/-- C2 (amended): for every positive domain size, the integer wraparound is
idempotent and lands in `[0, s)` in each coordinate; the fractional wraparound
is idempotent, and each coordinate lands in the interval `(-1, s)` — but not
necessarily in `[0, s)`: coordinates in `(-1, 0)` are returned unchanged. -/
theorem mapCorrection_wraparound_amended (p : ℤ × ℤ) (q : ℚ × ℚ) (s : ℤ × ℤ)
    (h1 : 0 < s.1) (h2 : 0 < s.2) :
    (mapCorrectionInt (mapCorrectionInt p s) s = mapCorrectionInt p s ∧
      0 ≤ (mapCorrectionInt p s).1 ∧ (mapCorrectionInt p s).1 < s.1 ∧
      0 ≤ (mapCorrectionInt p s).2 ∧ (mapCorrectionInt p s).2 < s.2) ∧
    (mapCorrectionQ (mapCorrectionQ q s) s = mapCorrectionQ q s ∧
      -1 < (mapCorrectionQ q s).1 ∧ (mapCorrectionQ q s).1 < s.1 ∧
      -1 < (mapCorrectionQ q s).2 ∧ (mapCorrectionQ q s).2 < s.2) := by
  refine ⟨⟨?_, ?_, ?_, ?_, ?_⟩, ⟨?_, ?_, ?_, ?_, ?_⟩⟩
  · simp only [mapCorrectionInt]
    rw [mapCorrection1Int_idem _ h1, mapCorrection1Int_idem _ h2]
  · exact mapCorrection1Int_nonneg _ h1
  · exact mapCorrection1Int_lt _ h1
  · exact mapCorrection1Int_nonneg _ h2
  · exact mapCorrection1Int_lt _ h2
  · simp only [mapCorrectionQ]
    rw [mapCorrection1Q_idem _ h1, mapCorrection1Q_idem _ h2]
  · exact mapCorrection1Q_gt_neg_one _ h1
  · exact mapCorrection1Q_lt _ h1
  · exact mapCorrection1Q_gt_neg_one _ h2
  · exact mapCorrection1Q_lt _ h2

/-- Witness for the amended C2 at position `(-13, 27)` / `(-1/2, 5/2)` with
domain size `(10, 10)`. -/
theorem mapCorrection_wraparound_amended_witness :
    (mapCorrectionInt (mapCorrectionInt (-13, 27) (10, 10)) (10, 10)
        = mapCorrectionInt (-13, 27) (10, 10) ∧
      0 ≤ (mapCorrectionInt (-13, 27) (10, 10)).1 ∧
      (mapCorrectionInt (-13, 27) (10, 10)).1 < 10 ∧
      0 ≤ (mapCorrectionInt (-13, 27) (10, 10)).2 ∧
      (mapCorrectionInt (-13, 27) (10, 10)).2 < 10) ∧
    (mapCorrectionQ (mapCorrectionQ (-(1/2 : ℚ), 5/2) (10, 10)) (10, 10)
        = mapCorrectionQ (-(1/2 : ℚ), 5/2) (10, 10) ∧
      -1 < (mapCorrectionQ (-(1/2 : ℚ), 5/2) (10, 10)).1 ∧
      (mapCorrectionQ (-(1/2 : ℚ), 5/2) (10, 10)).1 < 10 ∧
      -1 < (mapCorrectionQ (-(1/2 : ℚ), 5/2) (10, 10)).2 ∧
      (mapCorrectionQ (-(1/2 : ℚ), 5/2) (10, 10)).2 < 10) :=
  mapCorrection_wraparound_amended (-13, 27) (-(1/2 : ℚ), 5/2) (10, 10)
    (by norm_num) (by norm_num)

/- ================================================================
   Transformation pass
   (ParticleProcessor.cuh, processingTransformation_gridCall)
   ================================================================ -/

/-- The simulation parameters read by the transformation pass. -/
structure SimParams where
  cellMass_Reciprocal : ℚ
  cellMinEnergy : ℚ
  cellTransformationProb : ℚ

/-- Modelled from the spec: `Physics::linearKineticEnergy` lives in
`Physics.cuh`, which is not among the supplied sources.  The spec describes the
transformation threshold as the particle's energy minus its linear kinetic
energy, the standard `m * |v|^2 / 2` of a point mass. -/
def linearKineticEnergy (mass : ℚ) (vel : ℚ × ℚ) : ℚ :=
  mass * (vel.1 ^ 2 + vel.2 ^ 2) / 2

/-- The per-particle inner energy computed by the transformation pass:
`particle->energy - Physics::linearKineticEnergy(1 / cellMass_Reciprocal,
particle->vel)`. -/
def innerEnergy (params : SimParams) (p : Particle) : ℚ :=
  p.energy - linearKineticEnergy (1 / params.cellMass_Reciprocal) p.vel

/-- One iteration of `processingTransformation_gridCall` for particle `p`,
with `rand` the value drawn by `_data->numberGen.random()`.  Returns the
updated particle and whether a new single-cell cluster was allocated
(`EntityFactory::createClusterWithRandomCell`). -/
def processingTransformation (params : SimParams) (rand : ℚ) (p : Particle) :
    Particle × Bool :=
  if params.cellMinEnergy ≤ innerEnergy params p then
    if rand < params.cellTransformationProb then
      ({ p with alive := false }, true)
    else (p, false)
  else (p, false)

/- ================================================================
   Claim C6 — transformation threshold
   ================================================================ -/

/-- C6 counterexample: the claim says conversion happens only if the inner
energy strictly exceeds the configured minimum, but the code converts at
equality (`innerEnergy >= cellMinEnergy`).  With velocity 0, energy 1,
minimum 1, probability 1 and draw 0, the particle converts although its inner
energy does not exceed the minimum. -/
theorem claim_C6_counterexample :
    (processingTransformation ⟨1, 1, 1⟩ 0 ⟨(0, 0), (0, 0), 1, true⟩).2 = true ∧
    (processingTransformation ⟨1, 1, 1⟩ 0 ⟨(0, 0), (0, 0), 1, true⟩).1.alive
        = false ∧
    ¬ (SimParams.cellMinEnergy ⟨1, 1, 1⟩
        < innerEnergy ⟨1, 1, 1⟩ ⟨(0, 0), (0, 0), 1, true⟩) := by
  have hinner : innerEnergy ⟨1, 1, 1⟩ ⟨(0, 0), (0, 0), 1, true⟩ = 1 := by
    unfold innerEnergy linearKineticEnergy
    norm_num
  have hrun : processingTransformation ⟨1, 1, 1⟩ 0 ⟨(0, 0), (0, 0), 1, true⟩
      = (⟨(0, 0), (0, 0), 1, false⟩, true) := by
    unfold processingTransformation
    rw [hinner]
    norm_num
  have hmin : SimParams.cellMinEnergy ⟨1, 1, 1⟩ = 1 := rfl
  refine ⟨?_, ?_, ?_⟩
  · rw [hrun]
  · rw [hrun]
  · intro hcon
    rw [hmin, hinner] at hcon
    exact lt_irrefl _ hcon

/-- C6 (amended): a particle converts exactly when its inner energy reaches
or exceeds (`>=`) the configured minimum and the per-step random draw is
strictly below the configured probability; when it converts it is marked dead
and one new cell is allocated, and otherwise it is unchanged. -/
theorem transformation_threshold_amended (params : SimParams) (rand : ℚ)
    (p : Particle) :
    processingTransformation params rand p =
      if params.cellMinEnergy ≤ innerEnergy params p
          ∧ rand < params.cellTransformationProb
      then ({ p with alive := false }, true)
      else (p, false) := by
  unfold processingTransformation
  by_cases h1 : params.cellMinEnergy ≤ innerEnergy params p <;>
    by_cases h2 : rand < params.cellTransformationProb <;>
    simp [h1, h2]

/- ================================================================
   Data copy / absorption pass
   (ParticleProcessor.cuh, processingDataCopy_gridCall)
   ================================================================ -/

/-- A cell as seen by the particle passes: energy and liveness. -/
structure Cell where
  energy : ℚ
  alive : Bool
deriving DecidableEq

/-- One iteration of `processingDataCopy_gridCall` for the particle held in
one pointer-array slot.  `lookup` is `_data->cellMap.get`; the first component
of the result is the slot afterwards (`none` models the pointer being set to
`nullptr`), the second is the updated cell when an absorption happened. -/
def processingDataCopy (p : Particle) (lookup : ℚ × ℚ → Option Cell) :
    Option Particle × Option Cell :=
  if p.alive = false then (none, none)
  else
    match lookup p.absPos with
    | some cell =>
      if cell.alive then (none, some { cell with energy := cell.energy + p.energy })
      else (some p, none)
    | none => (some p, none)

/- ================================================================
   Claim C7 — absorption transfers the full energy
   ================================================================ -/

/-- C7: a live particle whose position maps to a live cell transfers exactly
its energy into that cell and its slot is cleared (removed from the next
generation); a live particle with no live cell at its position is left
unchanged and keeps its energy. -/
theorem dataCopy_absorption (p : Particle) (lookup : ℚ × ℚ → Option Cell)
    (hp : p.alive = true) :
    (∀ cell, lookup p.absPos = some cell → cell.alive = true →
      processingDataCopy p lookup
        = (none, some { cell with energy := cell.energy + p.energy })) ∧
    (lookup p.absPos = none → processingDataCopy p lookup = (some p, none)) ∧
    (∀ cell, lookup p.absPos = some cell → cell.alive = false →
      processingDataCopy p lookup = (some p, none)) := by
  refine ⟨?_, ?_, ?_⟩
  · intro cell hcell hcellAlive
    unfold processingDataCopy
    rw [hp, hcell]
    simp [hcellAlive]
  · intro hnone
    unfold processingDataCopy
    rw [hp, hnone]
    simp
  · intro cell hcell hcellDead
    unfold processingDataCopy
    rw [hp, hcell]
    simp [hcellDead]

/-- Witness for C7: a live particle of energy 3 over a live cell of energy 5
is absorbed, leaving a cell of energy 8 and an empty slot. -/
theorem dataCopy_absorption_witness :
    processingDataCopy ⟨(2, 2), (0, 0), 3, true⟩ (fun _ => some ⟨5, true⟩)
      = (none, some ⟨5 + 3, true⟩) :=
  (dataCopy_absorption ⟨(2, 2), (0, 0), 3, true⟩ (fun _ => some ⟨5, true⟩)
      rfl).1 ⟨5, true⟩ rfl rfl

/- ================================================================
   Movement pass and compaction
   ================================================================ -/

/-- One iteration of `processingMovement_gridCall`: the position is advanced
by the velocity and wrapped by `mapPosCorrection`. -/
def processingMovement (p : Particle) (size : ℤ × ℤ) : Particle :=
  { p with absPos := mapCorrectionQ (p.absPos.1 + p.vel.1, p.absPos.2 + p.vel.2) size }

/-- Modelled from the spec: the compaction/garbage-collection pass lives in
`GarbageCollectorKernels.cuh`, which is not among the supplied sources.  The
spec states that each arena's live entities are copied into the next
generation and dead entities are dropped. -/
def particleCompaction (ps : List Particle) : List Particle :=
  ps.filter (fun p => p.alive)

/- ================================================================
   Claim C8 — Dead is terminal
   ================================================================ -/

/-- C8: across the passes of one timestep, no particle whose liveness flag is
`false` is ever set back to `true`: movement leaves the flag untouched, a dead
particle is never merged (the collision guard requires both flags), the
transformation pass can only clear the flag, the data-copy pass drops a dead
particle's slot, and compaction excludes it. -/
theorem dead_is_terminal (p : Particle) (other : Option Particle)
    (q : Particle) (distinct lockAcquired : Bool) (params : SimParams)
    (rand : ℚ) (lookup : ℚ × ℚ → Option Cell) (size : ℤ × ℤ)
    (ps : List Particle) (hp : p.alive = false) :
    (processingMovement p size).alive = false ∧
    (processCollisionStep p other distinct lockAcquired).1.alive = false ∧
    (processCollisionStep q (some p) distinct lockAcquired).2 = some p ∧
    (processingTransformation params rand p).1.alive = false ∧
    processingDataCopy p lookup = (none, none) ∧
    p ∉ particleCompaction ps := by
  refine ⟨?_, ?_, ?_, ?_, ?_, ?_⟩
  · simpa [processingMovement] using hp
  · unfold processCollisionStep
    match other with
    | none => exact hp
    | some q' =>
      by_cases hd : distinct <;> simp [hd, hp]
  · unfold processCollisionStep
    by_cases hd : distinct <;> simp [hd, hp]
  · unfold processingTransformation
    split
    · split
      · rfl
      · exact hp
    · exact hp
  · unfold processingDataCopy
    rw [hp]
    simp
  · intro hmem
    have := List.of_mem_filter hmem
    rw [hp] at this
    exact absurd this (by decide)

/-- Witness for C8 on a concrete dead particle. -/
theorem dead_is_terminal_witness :
    (processingMovement ⟨(1, 1), (1, 0), 2, false⟩ (10, 10)).alive = false ∧
    (processCollisionStep ⟨(1, 1), (1, 0), 2, false⟩
        (some ⟨(1, 1), (0, 0), 3, true⟩) true true).1.alive = false ∧
    (processCollisionStep ⟨(1, 1), (0, 0), 3, true⟩
        (some ⟨(1, 1), (1, 0), 2, false⟩) true true).2
      = some ⟨(1, 1), (1, 0), 2, false⟩ ∧
    (processingTransformation ⟨1, 1, 1⟩ 0 ⟨(1, 1), (1, 0), 2, false⟩).1.alive
      = false ∧
    processingDataCopy ⟨(1, 1), (1, 0), 2, false⟩ (fun _ => some ⟨5, true⟩)
      = (none, none) ∧
    (⟨(1, 1), (1, 0), 2, false⟩ : Particle)
      ∉ particleCompaction [⟨(1, 1), (1, 0), 2, false⟩] :=
  dead_is_terminal ⟨(1, 1), (1, 0), 2, false⟩ (some ⟨(1, 1), (0, 0), 3, true⟩)
    ⟨(1, 1), (0, 0), 3, true⟩ true true ⟨1, 1, 1⟩ 0 (fun _ => some ⟨5, true⟩)
    (10, 10) [⟨(1, 1), (1, 0), 2, false⟩] rfl

/- ================================================================
   Simulation facade: timestep advance and automatic resize
   (_CudaSimulationFacade::calcTimestep / automaticResizeArrays)
   ================================================================ -/

/-- The facade state relevant to `calcTimestep`: the timestep counter and a
counter of `resizeArrays` invocations (the reallocate-copy-swap itself acts on
device memory and is abstracted to its invocation count). -/
structure FacadeState where
  currentTimestep : ℕ
  resizeCount : ℕ
deriving DecidableEq

/-- `_CudaSimulationFacade::automaticResizeArrays`: only on a timestep that is
a multiple of 10 is the overflow signal (`isArrayResizeNeeded`) inspected, and
`resizeArrays` runs only when it is set.  The second component records whether
the check was performed at all. -/
def automaticResizeArrays (resizeNeeded : Bool) (s : FacadeState) :
    FacadeState × Bool :=
  if s.currentTimestep % 10 = 0 then
    (if resizeNeeded then { s with resizeCount := s.resizeCount + 1 } else s,
     true)
  else (s, false)

/-- `_CudaSimulationFacade::calcTimestep`: run the kernels (whose overflow
signal for this step is the parameter `resizeNeeded`), then
`automaticResizeArrays()`, then `++_currentTimestep`. -/
def calcTimestep (resizeNeeded : Bool) (s : FacadeState) :
    FacadeState × Bool :=
  let r := automaticResizeArrays resizeNeeded s
  ({ r.1 with currentTimestep := r.1.currentTimestep + 1 }, r.2)

/- ================================================================
   Claim C9 — timestep advance and every-10th-step resize check
   ================================================================ -/

/-- C9: every `calcTimestep` call advances the timestep by exactly one; the
overflow signal is inspected exactly on the calls where the timestep counter
is a multiple of 10, and `resizeArrays` runs on such a call exactly when the
signal is set. -/
theorem calcTimestep_advance_and_resize (resizeNeeded : Bool)
    (s : FacadeState) :
    (calcTimestep resizeNeeded s).1.currentTimestep
        = s.currentTimestep + 1 ∧
    ((calcTimestep resizeNeeded s).2 = true ↔ s.currentTimestep % 10 = 0) ∧
    (calcTimestep resizeNeeded s).1.resizeCount
        = s.resizeCount
          + (if s.currentTimestep % 10 = 0 ∧ resizeNeeded = true then 1
             else 0) := by
  unfold calcTimestep automaticResizeArrays
  by_cases h : s.currentTimestep % 10 = 0 <;> cases resizeNeeded <;>
    simp [h]

/- ================================================================
   Simulation facade: inspected-data export
   (_CudaSimulationFacade::getInspectedSimulationData)
   ================================================================ -/

/-- The observable outcome of `getInspectedSimulationData`: whether the
device-side extraction pass ran, the meaningful prefix of the id array handed
to the device (`none` when nothing was handed over), and the caller's host
transfer buffer afterwards. -/
structure InspectOutcome (β : Type) where
  ranExtraction : Bool
  deviceIds : Option (List ℕ)
  hostBuffer : β
deriving DecidableEq

/-- `_CudaSimulationFacade::getInspectedSimulationData`.  `maxInspected` is
`Const::MaxInspectedEntities` (declared outside the supplied sources, kept
abstract), `host` the caller's transfer structure, and `extract` abstracts the
device extraction pass followed by `copyDataTOtoHost`.  Oversized id lists
return immediately; otherwise the ids are copied and, when the list is
shorter than the maximum, a 0 sentinel is written after the last id. -/
def getInspectedSimulationData {β : Type} (maxInspected : ℕ)
    (entityIds : List ℕ) (host : β) (extract : List ℕ → β) :
    InspectOutcome β :=
  if entityIds.length > maxInspected then
    { ranExtraction := false, deviceIds := none, hostBuffer := host }
  else
    let ids : List ℕ :=
      if entityIds.length < maxInspected then entityIds ++ [0] else entityIds
    { ranExtraction := true, deviceIds := some ids,
      hostBuffer := extract ids }

/- ================================================================
   Claim C10 — oversized inspect request is a silent no-op
   ================================================================ -/

/-- C10: an id list longer than the maximum returns immediately — no
extraction pass, nothing handed to the device, host buffer unchanged — and a
strictly shorter list is handed to the device terminated by a 0 sentinel
after the last id. -/
theorem getInspectedData_bounds {β : Type} (maxInspected : ℕ)
    (entityIds : List ℕ) (host : β) (extract : List ℕ → β) :
    (entityIds.length > maxInspected →
      getInspectedSimulationData maxInspected entityIds host extract
        = { ranExtraction := false, deviceIds := none, hostBuffer := host }) ∧
    (entityIds.length < maxInspected →
      (getInspectedSimulationData maxInspected entityIds host extract).deviceIds
          = some (entityIds ++ [0]) ∧
      (getInspectedSimulationData maxInspected entityIds host
          extract).ranExtraction = true) := by
  constructor
  · intro hgt
    unfold getInspectedSimulationData
    rw [if_pos hgt]
  · intro hlt
    unfold getInspectedSimulationData
    rw [if_neg (by omega)]
    simp [hlt]

/-- Witness for C10 with maximum 2: the list `[5, 6, 7]` is rejected leaving
the buffer at 42, and the list `[5]` is handed over as `[5, 0]`. -/
theorem getInspectedData_bounds_witness :
    getInspectedSimulationData 2 [5, 6, 7] (42 : ℕ) (fun l => l.length)
        = { ranExtraction := false, deviceIds := none, hostBuffer := 42 } ∧
    (getInspectedSimulationData 2 [5] (42 : ℕ) (fun l => l.length)).deviceIds
        = some [5, 0] :=
  ⟨(getInspectedData_bounds 2 [5, 6, 7] 42 (fun l => l.length)).1
      (by norm_num),
   ((getInspectedData_bounds 2 [5] 42 (fun l => l.length)).2
      (by norm_num)).1⟩

/- ================================================================
   Spatial map neighbor search
   (part_000, readCellMapHelper_Kernel / readCellMap_Kernel)
   ================================================================ -/

/-- A map entry: the occupying cell's id and the id of the cluster it belongs
to (`cell->cluster`, pointers modelled by ids). -/
structure CellRef where
  id : ℕ
  cluster : ℕ
deriving DecidableEq

/-- The layer scan of `readCellMapHelper_Kernel`: return the first non-null
entry belonging to a different cluster. -/
def firstOtherCluster (cluster : ℕ) : List (Option CellRef) → Option CellRef
  | [] => none
  | some c :: rest =>
    if c.cluster ≠ cluster then some c else firstOtherCluster cluster rest
  | none :: rest => firstOtherCluster cluster rest

/-- `readCellMapHelper_Kernel`: wrap the position, then scan the layers of
that grid cell.  The flat `mapEntry + i * slice` indexing is modelled by a
function from wrapped grid coordinates to the layer list. -/
def readCellMapHelper (posInt : ℤ × ℤ) (cluster : ℕ)
    (map : ℤ × ℤ → List (Option CellRef)) (size : ℤ × ℤ) : Option CellRef :=
  firstOtherCluster cluster (map (mapCorrectionInt posInt size))

/-- `readCellMap_Kernel`: the literal probe sequence of the source.  After
`--posInt.x; --posInt.y` the top row is scanned with two `++posInt.x`
(lines 74, 78) and the second row is entered with `++posInt.y;
posInt.x -= 2` (lines 82-83), but the remaining steps (lines 87, 91, 100,
104) are all `++posInt.y`, so the walk drifts downwards instead of scanning
rows: it visits (x-1,y-1), (x,y-1), (x+1,y-1), (x-1,y), (x-1,y+1),
(x-1,y+2), (x-3,y+3), (x-3,y+4), (x-3,y+5), returning the first hit. -/
def readCellMap (posInt : ℤ × ℤ) (cluster : ℕ)
    (map : ℤ × ℤ → List (Option CellRef)) (size : ℤ × ℤ) : Option CellRef :=
  let p1 := (posInt.1 - 1, posInt.2 - 1)
  match readCellMapHelper p1 cluster map size with
  | some c => some c
  | none =>
  let p2 := (p1.1 + 1, p1.2)
  match readCellMapHelper p2 cluster map size with
  | some c => some c
  | none =>
  let p3 := (p2.1 + 1, p2.2)
  match readCellMapHelper p3 cluster map size with
  | some c => some c
  | none =>
  let p4 := (p3.1 - 2, p3.2 + 1)
  match readCellMapHelper p4 cluster map size with
  | some c => some c
  | none =>
  let p5 := (p4.1, p4.2 + 1)
  match readCellMapHelper p5 cluster map size with
  | some c => some c
  | none =>
  let p6 := (p5.1, p5.2 + 1)
  match readCellMapHelper p6 cluster map size with
  | some c => some c
  | none =>
  let p7 := (p6.1 - 2, p6.2 + 1)
  match readCellMapHelper p7 cluster map size with
  | some c => some c
  | none =>
  let p8 := (p7.1, p7.2 + 1)
  match readCellMapHelper p8 cluster map size with
  | some c => some c
  | none =>
  let p9 := (p8.1, p8.2 + 1)
  readCellMapHelper p9 cluster map size

/-- The nine offsets of a 3×3 neighborhood, in the row-major order the spec
describes (x-offset and y-offset each in {-1, 0, +1}). -/
def neighborhoodOffsets : List (ℤ × ℤ) :=
  [(-1, -1), (0, -1), (1, -1), (-1, 0), (0, 0), (1, 0), (-1, 1), (0, 1), (1, 1)]

/-- First hit in a list of probe results. -/
def firstSome {α : Type} : List (Option α) → Option α
  | [] => none
  | some a :: _ => some a
  | none :: rest => firstSome rest

/-- The neighbor search as the spec words it: probe the nine wrapped cells
around the query cell and return the first occupying entity from a different
cluster, or none. -/
def neighborhoodSearch (posInt : ℤ × ℤ) (cluster : ℕ)
    (map : ℤ × ℤ → List (Option CellRef)) (size : ℤ × ℤ) : Option CellRef :=
  firstSome (neighborhoodOffsets.map fun d =>
    readCellMapHelper (posInt.1 + d.1, posInt.2 + d.2) cluster map size)

/- ================================================================
   Claim C5 — neighbor search does not probe the 3×3 neighborhood
   ================================================================ -/

/-- A map holding exactly one foreign-cluster cell at grid cell (6, 5), the
offset (+1, 0) from the query cell (5, 5) — inside the 3×3 neighborhood. -/
def demoMapInside : ℤ × ℤ → List (Option CellRef) := fun p =>
  if p = (6, 5) then [some ⟨1, 5⟩] else [none]

/-- A map holding exactly one foreign-cluster cell at grid cell (2, 8), the
offset (-3, +3) from the query cell (5, 5) — outside the 3×3 neighborhood. -/
def demoMapOutside : ℤ × ℤ → List (Option CellRef) := fun p =>
  if p = (2, 8) then [some ⟨2, 7⟩] else [none]

/-- C5: the claim (and the spec) say the neighbor search probes exactly the
nine wrapped cells with offsets in {-1, 0, +1}², but the code's probe walk
drifts (`++posInt.y` where a row scan would advance `++posInt.x`): evaluated
at query cell (5, 5) in a 12×12 domain, it misses the lone neighbor at
(6, 5) — offset (+1, 0), inside the 3×3, found by the spec's search — and it
returns the cell at (2, 8), whose offset (-3, +3) is not a 3×3 offset at
all.  The `posInt.x -= 2` row resets only make sense after two `++posInt.x`
steps, so the spec is the intent and the code a slip. -/
theorem claim_C5_code_divergence :
    readCellMap (5, 5) 3 demoMapInside (12, 12) = none ∧
    neighborhoodSearch (5, 5) 3 demoMapInside (12, 12) = some ⟨1, 5⟩ ∧
    ((1 : ℤ), (0 : ℤ)) ∈ neighborhoodOffsets ∧
    readCellMap (5, 5) 3 demoMapOutside (12, 12) = some ⟨2, 7⟩ ∧
    ((2 : ℤ) - 5, (8 : ℤ) - 5) ∉ neighborhoodOffsets := by
  decide

/- ================================================================
   Concurrent hash map (part_001, HashMap)
   ================================================================ -/

/-- The entry array of the hash map, sequentially observed: each slot is
either free (`none`) or holds a key/value pair (the `_free` flag together
with `_key`/`_value`).  Per-entry spin locks serialise slot accesses; their
acquisition always succeeds eventually in a sequentially consistent
interleaving, so the lock fields do not appear in the state. -/
abbrev HMState (K V : Type) : Type := List (Option (K × V))

/-- The do-while loop of `HashMap::insertOrAssign`.  `fuel` counts the
iterations still allowed before the `++dummy == _size` guard fires: the loop
starts with `dummy = 0` and the guard pre-increments, so at most
`_size - 1` probes happen and `none` models reaching the
`printf(...); while (true) {}` trap.  An occupied slot with the same key is
updated in place; an occupied slot with a different key advances the index by
`(++index) % _size`; the first free slot receives the new pair. -/
def insertOrAssignAux {K V : Type} [DecidableEq K] (k : K) (v : V) :
    ℕ → ℕ → HMState K V → Option (HMState K V)
  | _, 0, _ => none
  | index, fuel + 1, es =>
    match es[index]? with
    | some (some (k', _)) =>
      if k' = k then some (es.set index (some (k', v)))
      else insertOrAssignAux k v ((index + 1) % es.length) fuel es
    | some none => some (es.set index (some (k, v)))
    | none => none

/-- `HashMap::insertOrAssign`: probe from `_hash(key) % _size` with at most
`_size - 1` loop iterations. -/
def insertOrAssign {K V : Type} [DecidableEq K] (hash : K → ℕ)
    (es : HMState K V) (k : K) (v : V) : Option (HMState K V) :=
  insertOrAssignAux k v (hash k % es.length) (es.length - 1) es

/-- The do-while loop of `HashMap::at`, with the same `++dummy == _size`
trap as `insertOrAssign`; the outer `none` models the trap, `some none`
models the `return Value()` default on reaching a free slot, `some (some v)`
the found value. -/
def atAux {K V : Type} [DecidableEq K] (k : K) :
    ℕ → ℕ → HMState K V → Option (Option V)
  | _, 0, _ => none
  | index, fuel + 1, es =>
    match es[index]? with
    | some (some (k', v')) =>
      if k' = k then some (some v')
      else atAux k ((index + 1) % es.length) fuel es
    | some none => some none
    | none => none

/-- `HashMap::at`. -/
def atEntry {K V : Type} [DecidableEq K] (hash : K → ℕ)
    (es : HMState K V) (k : K) : Option (Option V) :=
  atAux k (hash k % es.length) (es.length - 1) es

/-- The bounded for-loop of `HashMap::contains`: exactly `_size` probes
(`for (int i = 0; i < _size; ++i, index = (++index) % _size)`), returning
false on a free slot or after a full scan. -/
def containsAux {K V : Type} [DecidableEq K] (k : K) :
    ℕ → ℕ → HMState K V → Bool
  | _, 0, _ => false
  | index, fuel + 1, es =>
    match es[index]? with
    | some (some (k', _)) =>
      if k' = k then true
      else containsAux k ((index + 1) % es.length) fuel es
    | some none => false
    | none => false

/-- `HashMap::contains`. -/
def containsKey {K V : Type} [DecidableEq K] (hash : K → ℕ)
    (es : HMState K V) (k : K) : Bool :=
  containsAux k (hash k % es.length) es.length es

/- Probe-sequence infrastructure for the hash-map proofs. -/

lemma hm_get_set_self {α : Type} (l : List α) (i : ℕ) (a : α)
    (h : i < l.length) : (l.set i a)[i]? = some a := by
  rw [List.getElem?_set_self']
  have hi : l[i]? = some l[i] := List.getElem?_eq_some_iff.mpr ⟨h, rfl⟩
  rw [hi]
  rfl

lemma hm_get_set_ne {α : Type} (l : List α) {i j : ℕ} (a : α) (h : i ≠ j) :
    (l.set i a)[j]? = l[j]? :=
  List.getElem?_set_ne h

/-- Two probe steps below the table size visit distinct slots. -/
lemma probe_index_inj {len i a b : ℕ} (ha : a < len) (hb : b < len)
    (h : (i + a) % len = (i + b) % len) : a = b := by
  have h' : a ≡ b [MOD len] := Nat.ModEq.add_left_cancel' i h
  unfold Nat.ModEq at h'
  rw [Nat.mod_eq_of_lt ha, Nat.mod_eq_of_lt hb] at h'
  exact h'

/-- Characterization of a completed `insertOrAssign` probe loop: it walked
some `m < fuel` occupied slots holding other keys, then wrote `(k, v)` into
the `m`-th probed slot, which was free or already held key `k`. -/
lemma insertOrAssignAux_spec {K V : Type} [DecidableEq K] (k : K) (v : V) :
    ∀ (fuel index : ℕ) (es es' : HMState K V), index < es.length →
      insertOrAssignAux k v index fuel es = some es' →
      ∃ m, m < fuel ∧
        (∀ l, l < m → ∃ k' v',
          es[(index + l) % es.length]? = some (some (k', v')) ∧ k' ≠ k) ∧
        (es[(index + m) % es.length]? = some none ∨
          ∃ v', es[(index + m) % es.length]? = some (some (k, v'))) ∧
        es' = es.set ((index + m) % es.length) (some (k, v)) := by
  intro fuel
  induction fuel with
  | zero => intro index es es' _ h; exact absurd h (by simp [insertOrAssignAux])
  | succ fuel ih =>
    intro index es es' hidx h
    have hlen : 0 < es.length := by omega
    have hidx0 : (index + 0) % es.length = index := by
      rw [Nat.add_zero, Nat.mod_eq_of_lt hidx]
    rw [insertOrAssignAux] at h
    cases hslot : es[index]? with
    | none =>
      simp only [hslot] at h
      exact Option.noConfusion h
    | some entry =>
      cases entry with
      | none =>
        simp only [hslot, Option.some.injEq] at h
        exact ⟨0, Nat.succ_pos _, by omega, by rw [hidx0]; exact Or.inl hslot,
          by rw [hidx0, ← h]⟩
      | some kv =>
        obtain ⟨k', v'⟩ := kv
        simp only [hslot] at h
        by_cases hk : k' = k
        · rw [if_pos hk] at h
          simp only [Option.some.injEq] at h
          subst hk
          exact ⟨0, Nat.succ_pos _, by omega,
            by rw [hidx0]; exact Or.inr ⟨v', hslot⟩, by rw [hidx0, ← h]⟩
        · rw [if_neg hk] at h
          have hidx' : (index + 1) % es.length < es.length :=
            Nat.mod_lt _ hlen
          obtain ⟨m, hm, hprev, htarget, hes'⟩ := ih _ es es' hidx' h
          have hshift : ∀ l, ((index + 1) % es.length + l) % es.length
              = (index + (l + 1)) % es.length := by
            intro l
            rw [Nat.mod_add_mod]
            ring_nf
          refine ⟨m + 1, by omega, ?_, ?_, ?_⟩
          · intro l hl
            cases l with
            | zero => exact ⟨k', v', by rw [hidx0]; exact hslot, hk⟩
            | succ l' =>
              have := hprev l' (by omega)
              rw [hshift l'] at this
              exact this
          · rw [← hshift m]; exact htarget
          · rw [← hshift m]; exact hes'

/-- If the first `m` probed slots hold other keys and the `m`-th probe holds
`(k, v)`, then `at` finds `v`, provided the fuel outlasts `m`. -/
lemma atAux_found {K V : Type} [DecidableEq K] (k : K) (v : V) :
    ∀ (m fuel index : ℕ) (es : HMState K V), m < fuel → index < es.length →
      (∀ l, l < m → ∃ k' v',
        es[(index + l) % es.length]? = some (some (k', v')) ∧ k' ≠ k) →
      es[(index + m) % es.length]? = some (some (k, v)) →
      atAux k index fuel es = some (some v) := by
  intro m
  induction m with
  | zero =>
    intro fuel index es hm hidx _ htarget
    obtain ⟨fuel', rfl⟩ : ∃ fuel', fuel = fuel' + 1 :=
      ⟨fuel - 1, by omega⟩
    rw [Nat.add_zero, Nat.mod_eq_of_lt hidx] at htarget
    rw [atAux]
    simp [htarget]
  | succ m ih =>
    intro fuel index es hm hidx hprev htarget
    obtain ⟨fuel', rfl⟩ : ∃ fuel', fuel = fuel' + 1 :=
      ⟨fuel - 1, by omega⟩
    have hlen : 0 < es.length := by omega
    obtain ⟨k', v', hslot, hk⟩ := hprev 0 (Nat.succ_pos _)
    rw [Nat.add_zero, Nat.mod_eq_of_lt hidx] at hslot
    rw [atAux]
    simp only [hslot, if_neg hk]
    have hshift : ∀ l, ((index + 1) % es.length + l) % es.length
        = (index + (l + 1)) % es.length := by
      intro l
      rw [Nat.mod_add_mod]
      ring_nf
    refine ih fuel' _ es (by omega) (Nat.mod_lt _ hlen) ?_ ?_
    · intro l hl
      have := hprev (l + 1) (by omega)
      rw [← hshift l] at this
      exact this
    · rw [hshift m]
      exact htarget

/-- The same statement for the bounded `contains` scan. -/
lemma containsAux_found {K V : Type} [DecidableEq K] (k : K) (v : V) :
    ∀ (m fuel index : ℕ) (es : HMState K V), m < fuel → index < es.length →
      (∀ l, l < m → ∃ k' v',
        es[(index + l) % es.length]? = some (some (k', v')) ∧ k' ≠ k) →
      es[(index + m) % es.length]? = some (some (k, v)) →
      containsAux k index fuel es = true := by
  intro m
  induction m with
  | zero =>
    intro fuel index es hm hidx _ htarget
    obtain ⟨fuel', rfl⟩ : ∃ fuel', fuel = fuel' + 1 :=
      ⟨fuel - 1, by omega⟩
    rw [Nat.add_zero, Nat.mod_eq_of_lt hidx] at htarget
    rw [containsAux]
    simp [htarget]
  | succ m ih =>
    intro fuel index es hm hidx hprev htarget
    obtain ⟨fuel', rfl⟩ : ∃ fuel', fuel = fuel' + 1 :=
      ⟨fuel - 1, by omega⟩
    have hlen : 0 < es.length := by omega
    obtain ⟨k', v', hslot, hk⟩ := hprev 0 (Nat.succ_pos _)
    rw [Nat.add_zero, Nat.mod_eq_of_lt hidx] at hslot
    rw [containsAux]
    simp only [hslot, if_neg hk]
    have hshift : ∀ l, ((index + 1) % es.length + l) % es.length
        = (index + (l + 1)) % es.length := by
      intro l
      rw [Nat.mod_add_mod]
      ring_nf
    refine ih fuel' _ es (by omega) (Nat.mod_lt _ hlen) ?_ ?_
    · intro l hl
      have := hprev (l + 1) (by omega)
      rw [← hshift l] at this
      exact this
    · rw [hshift m]
      exact htarget

/-- When every slot of the table holds a key different from `k`, the bounded
`contains` scan exhausts its probes and returns false. -/
lemma containsAux_mismatch_false {K V : Type} [DecidableEq K] (k : K) :
    ∀ (fuel index : ℕ) (es : HMState K V), index < es.length →
      (∀ j, j < es.length →
        ∃ k' v', es[j]? = some (some (k', v')) ∧ k' ≠ k) →
      containsAux k index fuel es = false := by
  intro fuel
  induction fuel with
  | zero => intro index es _ _; rfl
  | succ fuel ih =>
    intro index es hidx hmis
    have hlen : 0 < es.length := by omega
    obtain ⟨k', v', hslot, hk⟩ := hmis index hidx
    rw [containsAux]
    simp only [hslot, if_neg hk]
    exact ih _ es (Nat.mod_lt _ hlen) hmis

/-- When every slot of the table holds a key different from `k`, the `at`
probe loop reaches the `++dummy == _size` trap: in the source this is
`printf(...); while (true) {}`, i.e. the call never returns. -/
lemma atAux_mismatch_none {K V : Type} [DecidableEq K] (k : K) :
    ∀ (fuel index : ℕ) (es : HMState K V), index < es.length →
      (∀ j, j < es.length →
        ∃ k' v', es[j]? = some (some (k', v')) ∧ k' ≠ k) →
      atAux k index fuel es = none := by
  intro fuel
  induction fuel with
  | zero => intro index es _ _; rfl
  | succ fuel ih =>
    intro index es hidx hmis
    have hlen : 0 < es.length := by omega
    obtain ⟨k', v', hslot, hk⟩ := hmis index hidx
    rw [atAux]
    simp only [hslot, if_neg hk]
    exact ih _ es (Nat.mod_lt _ hlen) hmis

/-- Invariant carried across inserts for C3: within the first `m` probe steps
of key `k`'s chain all slots are occupied by other keys, and the `m`-th probed
slot holds `(k, v)`. -/
def FindsKey {K V : Type} [DecidableEq K] (hash : K → ℕ) (es : HMState K V)
    (k : K) (v : V) (m : ℕ) : Prop :=
  (∀ l, l < m → ∃ k' v',
    es[(hash k % es.length + l) % es.length]? = some (some (k', v')) ∧
    k' ≠ k) ∧
  es[(hash k % es.length + m) % es.length]? = some (some (k, v))

/-- A successful `insertOrAssign hash es k v` leaves the table in a state
where `k`'s probe chain finds `(k, v)` within `es.length - 1` steps. -/
lemma insertOrAssign_establishes {K V : Type} [DecidableEq K] {hash : K → ℕ}
    {es es₁ : HMState K V} {k : K} {v : V}
    (h : insertOrAssign hash es k v = some es₁) :
    es₁.length = es.length ∧
    ∃ m, m < es.length - 1 ∧ FindsKey hash es₁ k v m := by
  have hlen : 0 < es.length := by
    by_contra hcon
    have h0 : es.length = 0 := by omega
    unfold insertOrAssign at h
    rw [h0] at h
    exact Option.noConfusion h
  have hidx : hash k % es.length < es.length := Nat.mod_lt _ hlen
  obtain ⟨m, hm, hprev, _, hes₁⟩ :=
    insertOrAssignAux_spec k v (es.length - 1) (hash k % es.length) es es₁
      hidx h
  have hL : es₁.length = es.length := by rw [hes₁, List.length_set]
  set i0 := hash k % es.length with hi0
  have hjlt : (i0 + m) % es.length < es.length := Nat.mod_lt _ hlen
  refine ⟨hL, m, hm, ?_, ?_⟩
  · intro l hl
    obtain ⟨k', v', hslot, hk⟩ := hprev l hl
    have hne : (i0 + m) % es.length ≠ (i0 + l) % es.length := by
      intro hcon
      have : m = l := probe_index_inj (by omega) (by omega) hcon
      omega
    refine ⟨k', v', ?_, hk⟩
    rw [hes₁]
    simp only [List.length_set]
    rw [hm_get_set_ne es _ hne]
    exact hslot
  · rw [hes₁]
    simp only [List.length_set]
    exact hm_get_set_self es _ _ hjlt

/-- Inserting a different key preserves where `k`'s probe chain finds its
value: the write lands in a slot that was free or held the other key, so it
can neither displace `(k, v)` nor turn a mismatch slot into a match. -/
lemma insertOrAssign_preserves {K V : Type} [DecidableEq K] {hash : K → ℕ}
    {es es' : HMState K V} {k k2 : K} {v : V} {v2 : V} {m : ℕ}
    (hne : k2 ≠ k) (hfind : FindsKey hash es k v m)
    (h : insertOrAssign hash es k2 v2 = some es') :
    es'.length = es.length ∧ FindsKey hash es' k v m := by
  have hlen : 0 < es.length := by
    by_contra hcon
    have h0 : es.length = 0 := by omega
    unfold insertOrAssign at h
    rw [h0] at h
    exact Option.noConfusion h
  have hidx2 : hash k2 % es.length < es.length := Nat.mod_lt _ hlen
  obtain ⟨m2, _, _, htarget2, hes'⟩ :=
    insertOrAssignAux_spec k2 v2 (es.length - 1) (hash k2 % es.length) es es'
      hidx2 h
  set j2 := (hash k2 % es.length + m2) % es.length with hj2
  have hj2lt : j2 < es.length := Nat.mod_lt _ hlen
  have hL : es'.length = es.length := by rw [hes', List.length_set]
  obtain ⟨hprev, htarget⟩ := hfind
  refine ⟨hL, ?_, ?_⟩
  · intro l hl
    obtain ⟨k', v', hslot, hk⟩ := hprev l hl
    rw [hes']
    simp only [List.length_set]
    by_cases hcase : j2 = (hash k % es.length + l) % es.length
    · rw [← hcase, hm_get_set_self es _ _ hj2lt]
      exact ⟨k2, v2, rfl, hne⟩
    · rw [hm_get_set_ne es _ hcase]
      exact ⟨k', v', hslot, hk⟩
  · have hj2target : j2 ≠ (hash k % es.length + m) % es.length := by
      intro hcon
      rcases htarget2 with hfree | ⟨w, hocc⟩
      · rw [hcon] at hfree
        rw [hfree] at htarget
        exact Option.noConfusion (Option.some.inj htarget)
      · rw [hcon] at hocc
        rw [hocc] at htarget
        have := Option.some.inj (Option.some.inj htarget)
        exact hne (congrArg Prod.fst this)
    rw [hes']
    simp only [List.length_set]
    rw [hm_get_set_ne es _ hj2target]
    exact htarget

/-- A sequence of `insertOrAssign` calls, `none` as soon as one of them
hangs. -/
def runInserts {K V : Type} [DecidableEq K] (hash : K → ℕ) :
    List (K × V) → HMState K V → Option (HMState K V)
  | [], es => some es
  | (k, v) :: rest, es =>
    match insertOrAssign hash es k v with
    | none => none
    | some es' => runInserts hash rest es'

/-- `FindsKey` survives any completed sequence of inserts of other keys. -/
lemma runInserts_preserves {K V : Type} [DecidableEq K] {hash : K → ℕ}
    {k : K} {v : V} {m : ℕ} :
    ∀ (ops : List (K × V)) (es es' : HMState K V),
      runInserts hash ops es = some es' →
      (∀ kv, kv ∈ ops → kv.1 ≠ k) →
      FindsKey hash es k v m →
      es'.length = es.length ∧ FindsKey hash es' k v m := by
  intro ops
  induction ops with
  | nil =>
    intro es es' h _ hfind
    rw [runInserts] at h
    cases h
    exact ⟨rfl, hfind⟩
  | cons kv rest ih =>
    intro es es' h hops hfind
    obtain ⟨k2, v2⟩ := kv
    rw [runInserts] at h
    cases hstep : insertOrAssign hash es k2 v2 with
    | none => rw [hstep] at h; exact Option.noConfusion h
    | some es₁ =>
      rw [hstep] at h
      have hk2 : k2 ≠ k := hops (k2, v2) (List.mem_cons_self _ _)
      obtain ⟨hL1, hfind1⟩ := insertOrAssign_preserves hk2 hfind hstep
      obtain ⟨hL2, hfind2⟩ :=
        ih es₁ es' h (fun kv hkv => hops kv (List.mem_cons_of_mem _ hkv)) hfind1
      exact ⟨by rw [hL2, hL1], hfind2⟩

/- ================================================================
   Claim C3 — hash map lookup after insertOrAssign
   ================================================================ -/

/-- C3: after a completed `insertOrAssign k v`, `contains k` is true and
`at k` returns `v`, and both keep doing so across any further completed
`insertOrAssign` calls for other keys (i.e. until the next
`insertOrAssign(k, _)` overwrites the value).  Completion of each call is the
explicit hypothesis: the capacity discipline of the claim is what makes the
probe loops return instead of reaching their trap. -/
theorem hashMap_insert_then_lookup {K V : Type} [DecidableEq K]
    (hash : K → ℕ) (es es₁ es₂ : HMState K V) (k : K) (v : V)
    (ops : List (K × V))
    (h₁ : insertOrAssign hash es k v = some es₁)
    (h₂ : runInserts hash ops es₁ = some es₂)
    (hops : ∀ kv, kv ∈ ops → kv.1 ≠ k) :
    containsKey hash es₂ k = true ∧ atEntry hash es₂ k = some (some v) := by
  have hlen : 0 < es.length := by
    by_contra hcon
    have h0 : es.length = 0 := by omega
    unfold insertOrAssign at h₁
    rw [h0] at h₁
    exact Option.noConfusion h₁
  obtain ⟨hL1, m, hm, hfind1⟩ := insertOrAssign_establishes h₁
  obtain ⟨hL2, hfind2⟩ := runInserts_preserves ops es₁ es₂ h₂ hops hfind1
  have hLes₂ : es₂.length = es.length := by rw [hL2, hL1]
  have hidx : hash k % es₂.length < es₂.length := by
    rw [hLes₂]
    exact Nat.mod_lt _ hlen
  obtain ⟨hprev, htarget⟩ := hfind2
  constructor
  · unfold containsKey
    exact containsAux_found k v m es₂.length _ es₂ (by omega) hidx hprev
      htarget
  · unfold atEntry
    exact atAux_found k v m (es₂.length - 1) _ es₂ (by omega) hidx hprev
      htarget

/-- Witness for C3: in a table of capacity 3 (identity hash), insert
`(1, 10)`, then insert `(2, 20)`; `contains 1` is true and `at 1` returns
10. -/
theorem hashMap_insert_then_lookup_witness :
    containsKey (fun n => n)
        ([none, some (1, 10), some (2, 20)] : HMState ℕ ℕ) 1 = true ∧
    atEntry (fun n => n)
        ([none, some (1, 10), some (2, 20)] : HMState ℕ ℕ) 1
      = some (some 10) :=
  hashMap_insert_then_lookup (fun n => n)
    ([none, none, none] : HMState ℕ ℕ) [none, some (1, 10), none]
    [none, some (1, 10), some (2, 20)] 1 10 [(2, 20)]
    (by decide) (by decide) (by decide)

/- ================================================================
   Claim C4 — lookup termination on a full-table miss
   ================================================================ -/

/-- C4 counterexample: on a full table holding only other keys, `contains`
does return a miss after its bounded scan, but `at` does not return a
miss/failure value — its probe loop reaches the `++dummy == _size` trap
(`printf(...); while (true) {}` in the source, the `none` of the model) and
blocks forever, contradicting the claim that both return rather than block. -/
theorem claim_C4_counterexample :
    atEntry (fun n => n)
        ([some (0, 10), some (1, 11)] : HMState ℕ ℕ) 2 = none ∧
    ∀ w : ℕ, atEntry (fun n => n)
        ([some (0, 10), some (1, 11)] : HMState ℕ ℕ) 2 ≠ some (some w) := by
  refine ⟨by decide, ?_⟩
  intro w hcon
  rw [show atEntry (fun n => n)
      ([some (0, 10), some (1, 11)] : HMState ℕ ℕ) 2 = none by decide] at hcon
  exact Option.noConfusion hcon

/-- C4 (amended): on a table whose every slot is occupied by a key different
from the query, `contains` scans the full table and returns false without
blocking, but `at` never returns: its `++dummy == _size` guard fires after
`_size - 1` probes and the source enters an unbounded loop. -/
theorem hashMap_full_scan_amended {K V : Type} [DecidableEq K]
    (hash : K → ℕ) (es : HMState K V) (k : K) (hlen : 0 < es.length)
    (hmis : ∀ j, j < es.length →
      ∃ k' v', es[j]? = some (some (k', v')) ∧ k' ≠ k) :
    containsKey hash es k = false ∧ atEntry hash es k = none := by
  have hidx : hash k % es.length < es.length := Nat.mod_lt _ hlen
  exact ⟨containsAux_mismatch_false k es.length _ es hidx hmis,
    atAux_mismatch_none k (es.length - 1) _ es hidx hmis⟩

/-- Witness for the amended C4 on the two-slot table holding keys 0 and 1,
queried for key 2. -/
theorem hashMap_full_scan_amended_witness :
    containsKey (fun n => n)
        ([some (0, 10), some (1, 11)] : HMState ℕ ℕ) 2 = false ∧
    atEntry (fun n => n)
        ([some (0, 10), some (1, 11)] : HMState ℕ ℕ) 2 = none :=
  hashMap_full_scan_amended (fun n => n)
    ([some (0, 10), some (1, 11)] : HMState ℕ ℕ) 2 (by decide)
    (fun j hj =>
      match j with
      | 0 => ⟨0, 10, rfl, by decide⟩
      | 1 => ⟨1, 11, rfl, by decide⟩
      | n + 2 => absurd hj (by simp))
